import Mathlib

/-!
Verification development for the binary symbol resolution core
(ELF/PE parsing, GOT builder, PLT resolver, symbol aggregation).

The Rust source is shallowly embedded as follows.

Hash maps (std::collections::HashMap) are modelled as association lists
whose insert prepends the new binding and drops any previous binding for
the same key, so lookups see the latest insert.  The Rust code only ever
builds maps by repeated insertion, so iteration over the model visits
each key once; Rust leaves HashMap iteration order unspecified, and the
list order of the model is one admissible order.

Goblin-parsed ELF images are modelled by the structure ElfImage: the
header fields, program header types, section headers and the dynamic
array are carried directly; the byte-level decoding that goblin performs
on the raw file (Symtab::parse, Strtab::parse, RelocSection::parse and
raw byte slices) is carried by oracle functions on the image, keyed by
the file offsets and sizes the source passes to goblin, each returning
Except to mirror goblin's Result.  String tables are kept as raw byte
lists and symbol names are byte strings; goblin's Strtab::get is
modelled by strtabGet, which returns none when the requested offset is
at or past the end of the table (goblin documents exactly this) and the
NUL-delimited byte run otherwise.

The unicorn CPU emulator is an external library; the observable outcome
of running one candidate stub from a pristine context (with EBX
preloaded with DT_PLTGOT on 32-bit x86) is modelled by the image's
observe oracle: given the candidate start address it returns the last
address written into the memory-hook cell, or none when no access was
observed.  Emulator construction, mapping and hooking are modelled as
succeeding; the architecture gate that precedes them in the source is
kept exactly.
-/

deriving instance DecidableEq for Except

namespace BinCore

/-! ## Association-list maps (model of std::collections::HashMap) -/

/-- Lookup in an association-list map: value of the first binding of the key. -/
def findA {α β : Type} [DecidableEq α] (m : List (α × β)) (k : α) : Option β :=
  match m.find? (fun p => p.1 = k) with
  | some p => some p.2
  | none => none

/-- Remove every binding of the key from an association-list map. -/
def eraseKeyA {α β : Type} [DecidableEq α] : List (α × β) → α → List (α × β)
  | [], _ => []
  | p :: t, k => if p.1 = k then eraseKeyA t k else p :: eraseKeyA t k

/-- Insert into an association-list map, replacing any previous binding. -/
def insertA {α β : Type} [DecidableEq α] (m : List (α × β)) (k : α) (v : β) :
    List (α × β) :=
  (k, v) :: eraseKeyA m k

/-- Key membership test, as HashMap::contains_key. -/
def containsA {α β : Type} [DecidableEq α] (m : List (α × β)) (k : α) : Bool :=
  (findA m k).isSome

/-- The keys of an association-list map. -/
def keysA {α β : Type} (m : List (α × β)) : List α :=
  m.map (fun p => p.1)

/-- Key lists of maps built by insertA are duplicate-free. -/
def nodupK {α β : Type} (m : List (α × β)) : Prop :=
  (keysA m).Nodup

/-! ## ELF constants (values from the ELF specification, as used by goblin) -/

def PT_INTERP : Nat := 3
def SHT_SYMTAB : Nat := 2
def SHT_RELA : Nat := 4
def SHT_REL : Nat := 9
def SHT_DYNSYM : Nat := 11
def SHT_SUNW_LDYNSYM : Nat := 0x6ffffff3
def SHN_UNDEF : Nat := 0
def DT_PLTGOT : Nat := 3
def EM_386 : Nat := 3
def EM_ARM : Nat := 40
def EM_X86_64 : Nat := 62
def EM_AARCH64 : Nat := 183

/-! ## ELF data model -/

/-- A symbol-table entry (goblin Sym): name offset into the linked string
table and value. -/
structure Sym where
  st_name : Nat
  st_value : Nat
deriving DecidableEq, Repr

/-- A relocation (goblin Reloc): symbol-table index and target offset. -/
structure Reloc where
  r_sym : Nat
  r_offset : Nat
deriving DecidableEq, Repr

/-- An ELF section header (the fields the source reads). -/
structure SectionHeader where
  sh_name : Nat
  sh_type : Nat
  sh_link : Nat
  sh_addr : Nat
  sh_offset : Nat
  sh_size : Nat
  sh_entsize : Nat
deriving DecidableEq, Repr

/-- A dynamic-array entry (goblin Dyn). -/
structure Dyn where
  d_tag : Nat
  d_val : Nat
deriving DecidableEq, Repr

/-- A goblin-parsed ELF image together with the decoding oracles described
in the module comment. -/
structure ElfImage where
  e_machine : Nat
  is_64 : Bool
  little_endian : Bool
  /-- the p_type of each program header, in order -/
  program_headers : List Nat
  section_headers : List SectionHeader
  /-- bytes of the section-header string table -/
  shdr_strtab : List Nat
  /-- the dynamic array, when the image has one -/
  dynamic : Option (List Dyn)
  /-- Symtab::parse at (sh_offset, count) -/
  symtabParse : Nat → Nat → Except String (List Sym)
  /-- Strtab::parse at (sh_offset, sh_size), returning the raw bytes -/
  strtabParse : Nat → Nat → Except String (List Nat)
  /-- RelocSection::parse at (sh_offset, sh_size, is_rela) -/
  relocParse : Nat → Nat → Bool → Except String (List Reloc)
  /-- the raw byte slice raw_data with the given start and end offsets -/
  sectionData : Nat → Nat → List Nat
  /-- outcome of emulating one candidate stub from the given start address:
  the last observed memory-access address, if any -/
  observe : Nat → Option Nat

/-- Symbol-name maps of the ELF side: byte-string name to address. -/
abbrev SymMap := List (List Nat × Nat)

/-- Goblin's Strtab::get: none when the offset is at or past the end of the
table, otherwise the NUL-delimited byte run starting at the offset. -/
def strtabGet (tab : List Nat) (off : Nat) : Option (List Nat) :=
  if tab.length ≤ off then none
  else some ((tab.drop off).takeWhile (fun b => b ≠ 0))

/-- ELFBinary::get_section_by_name: the first section whose name in the
section-header string table equals the requested name.  A name whose
offset is unreadable makes the section be skipped, as in the source. -/
def get_section_by_name (img : ElfImage) (name : List Nat) :
    Option SectionHeader :=
  img.section_headers.find? (fun s =>
    strtabGet img.shdr_strtab s.sh_name == some name)

/-- The byte string ".plt". -/
def dotPlt : List Nat := [46, 112, 108, 116]

/-- The byte string ".plt.got". -/
def dotPltGot : List Nat := [46, 112, 108, 116, 46, 103, 111, 116]

/-- The byte string ".plt.sec". -/
def dotPltSec : List Nat := [46, 112, 108, 116, 46, 115, 101, 99]

/-- The byte string "plt." used to build prefixed keys. -/
def pltDot : List Nat := [112, 108, 116, 46]

/-- The byte string "got." used to build prefixed keys. -/
def gotDot : List Nat := [103, 111, 116, 46]

/-! ## The error-propagating section loop

The Rust source iterates sections with a for loop inside a function
returning Result, so the first failing section aborts the whole pass. -/

/-- A for loop over xs that threads an accumulator and aborts at the first
failing step, as a Rust for loop with the question-mark operator. -/
def eLoop {σ : Type} (step : SymMap → σ → Except String SymMap) :
    List σ → SymMap → Except String SymMap
  | [], acc => Except.ok acc
  | s :: rest, acc =>
    match step acc s with
    | Except.ok acc' => eLoop step rest acc'
    | Except.error e => Except.error e

/-! ## GOT builder (ELFBinary::parse_got) -/

/-- The body of the relocation loop of parse_got: relocations with symbol
index 0, unresolvable symbol indices and unreadable name offsets are
skipped, every other relocation stores name to r_offset. -/
def relocApply (symbols : List Sym) (strs : List Nat) (m : SymMap)
    (r : Reloc) : SymMap :=
  if r.r_sym = 0 then m
  else
    match symbols.get? r.r_sym with
    | none => m
    | some sym =>
      match strtabGet strs sym.st_name with
      | none => m
      | some nm => insertA m nm r.r_offset

/-- One section of parse_got: non-relocation sections and relocation
sections without a link are skipped; otherwise the linked symbol table,
its linked string table and the relocation array are decoded and the
relocation loop runs. -/
def gotStep (img : ElfImage) (acc : SymMap) (s : SectionHeader) :
    Except String SymMap :=
  if (s.sh_type ≠ SHT_REL ∧ s.sh_type ≠ SHT_RELA) ∨ s.sh_link = SHN_UNDEF then
    Except.ok acc
  else
    match img.section_headers.get? s.sh_link with
    | none => Except.error "Failed to get symbol section"
    | some symSec =>
      match img.symtabParse symSec.sh_offset (symSec.sh_size / symSec.sh_entsize) with
      | Except.error e => Except.error e
      | Except.ok symbols =>
        match img.section_headers.get? symSec.sh_link with
        | none => Except.error "Failed to get symbol string section"
        | some strSec =>
          match img.strtabParse strSec.sh_offset strSec.sh_size with
          | Except.error e => Except.error e
          | Except.ok strs =>
            match img.relocParse s.sh_offset s.sh_size (s.sh_type == SHT_RELA) with
            | Except.error e => Except.error e
            | Except.ok relocs =>
              Except.ok (relocs.foldl (relocApply symbols strs) acc)

/-- ELFBinary::parse_got: empty for a statically linked image, otherwise the
section loop over all section headers. -/
def parse_got (img : ElfImage) : Except String SymMap :=
  if img.program_headers.all (fun pt => pt != PT_INTERP) then Except.ok []
  else eLoop (gotStep img) img.section_headers []

/-! ## PLT resolver (ELFBinary::emulate_plt_instructions, parse_plt) -/

/-- Whether e_machine is one of the four architectures the PLT resolver
supports. -/
def supportedMachine (m : Nat) : Bool :=
  m == EM_ARM || m == EM_AARCH64 || m == EM_386 || m == EM_X86_64

/-- ELFBinary::emulate_plt_instructions: reject unsupported architectures,
then run every 4-byte-aligned candidate of the section and record the
pairs of start address and non-zero observed address. -/
def emulate_plt_instructions (img : ElfImage) (got : Nat)
    (plt_section_address : Nat) (plt_section_data : List Nat) :
    Except String (List (Nat × Nat)) :=
  if supportedMachine img.e_machine then
    Except.ok ((List.range (plt_section_data.length / 4)).filterMap (fun b =>
      let starting_address := plt_section_address + b * 4
      match img.observe starting_address with
      | some addr => if addr ≠ 0 then some (starting_address, addr) else none
      | none => none))
  else Except.error "Unsupported architecture"

/-- The inverse GOT map built in parse_plt: address to symbol name. -/
def invertMap (got : SymMap) : List (Nat × List Nat) :=
  got.foldl (fun m e => insertA m e.2 e.1) []

/-- One candidate PLT section in parse_plt: a missing section is skipped;
otherwise its bytes are emulated and every observed address found in the
inverse GOT map binds the symbol name to the stub address. -/
def pltSecStep (img : ElfImage) (dtPltgot : Nat) (gotTargets : List (Nat × List Nat))
    (acc : SymMap) (osec : Option SectionHeader) : Except String SymMap :=
  match osec with
  | none => Except.ok acc
  | some s =>
    match emulate_plt_instructions img dtPltgot s.sh_addr
        (img.sectionData s.sh_offset (s.sh_offset + s.sh_size)) with
    | Except.error e => Except.error e
    | Except.ok pga =>
      Except.ok (pga.foldl (fun m pg =>
        match findA gotTargets pg.2 with
        | some key => insertA m key pg.1
        | none => m) acc)

/-- ELFBinary::parse_plt: empty for a statically linked image; otherwise the
three candidate sections are looked up by name, the dynamic array and its
DT_PLTGOT entry are required unconditionally, and the section loop runs. -/
def parse_plt (img : ElfImage) (got : SymMap) : Except String SymMap :=
  if img.program_headers.all (fun pt => pt != PT_INTERP) then Except.ok []
  else
    let sections := [get_section_by_name img dotPlt,
      get_section_by_name img dotPltGot, get_section_by_name img dotPltSec]
    match img.dynamic with
    | none => Except.error "Failed to get dynamic linking information"
    | some dyns =>
      match dyns.find? (fun d => d.d_tag == DT_PLTGOT) with
      | none => Except.error "Failed to get DT_PLTGOT information"
      | some d => eLoop (pltSecStep img d.d_val (invertMap got)) sections []

/-! ## Symbol aggregator (ELFBinary::parse_symbols) -/

/-- The per-entry body of the static ingestion: resolve each name in the
linked string table, failing when the offset is unresolvable, as the
collect of Results in the source. -/
def symsToEntries (strs : List Nat) : List Sym → Except String SymMap
  | [] => Except.ok []
  | x :: rest =>
    match strtabGet strs x.st_name with
    | none => Except.error "Strtab entry not found"
    | some nm =>
      match symsToEntries strs rest with
      | Except.ok es => Except.ok ((nm, x.st_value) :: es)
      | Except.error e => Except.error e

/-- One section of the static-symbol scan of parse_symbols: sections other
than SHT_SYMTAB, SHT_DYNSYM and SHT_SUNW_LDYNSYM are skipped; zero-valued
entries are filtered out before name resolution. -/
def staticsStep (img : ElfImage) (acc : SymMap) (s : SectionHeader) :
    Except String SymMap :=
  if s.sh_type ≠ SHT_SYMTAB ∧ s.sh_type ≠ SHT_DYNSYM ∧ s.sh_type ≠ SHT_SUNW_LDYNSYM then
    Except.ok acc
  else
    match img.symtabParse s.sh_offset (s.sh_size / s.sh_entsize) with
    | Except.error e => Except.error e
    | Except.ok symtab =>
      match img.section_headers.get? s.sh_link with
      | none => Except.error "Failed to get symbol string section"
      | some sss =>
        match img.strtabParse sss.sh_offset sss.sh_size with
        | Except.error e => Except.error e
        | Except.ok strs =>
          match symsToEntries strs (symtab.filter (fun x => x.st_value != 0)) with
          | Except.error e => Except.error e
          | Except.ok entries =>
            Except.ok (entries.foldl (fun m e => insertA m e.1 e.2) acc)

/-- The static-symbol half of ELFBinary::parse_symbols: scan of all symbol
table sections. -/
def parse_statics (img : ElfImage) : Except String SymMap :=
  eLoop (staticsStep img) img.section_headers []

/-- The body of the PLT and GOT ingestion loops of parse_symbols: insert the
prefixed key unconditionally, then the bare key only when absent. -/
def prefStep (pre : List Nat) (m : SymMap) (e : List Nat × Nat) : SymMap :=
  let m1 := insertA m (pre ++ e.1) e.2
  if containsA m1 e.1 then m1 else insertA m1 e.1 e.2

/-- ELFBinary::parse_symbols: static ingestion, then the PLT entries, then
the GOT entries. -/
def parse_symbols (img : ElfImage) (plt got : SymMap) : Except String SymMap :=
  match parse_statics img with
  | Except.error e => Except.error e
  | Except.ok statics =>
    Except.ok (got.foldl (prefStep gotDot) (plt.foldl (prefStep pltDot) statics))

/-! ## ELF handle (ELFBinary::new, Binary::get_sym_addr) -/

/-- The three maps an opened ELF exposes. -/
structure ELFBinary where
  got : SymMap
  plt : SymMap
  symbols : SymMap
deriving DecidableEq, Repr

/-- ELFBinary::new: GOT, then PLT, then symbols; the first failing pass
aborts the open. -/
def ELFBinary.new (img : ElfImage) : Except String ELFBinary :=
  match parse_got img with
  | Except.error e => Except.error e
  | Except.ok got =>
    match parse_plt img got with
    | Except.error e => Except.error e
    | Except.ok plt =>
      match parse_symbols img plt got with
      | Except.error e => Except.error e
      | Except.ok symbols => Except.ok ⟨got, plt, symbols⟩

/-- Binary::get_sym_addr for ELF: lookup in the unified symbols map. -/
def get_sym_addr (b : ELFBinary) (sym : List Nat) : Except String Nat :=
  match findA b.symbols sym with
  | some v => Except.ok v
  | none => Except.error "Symbol not found"

/-- Whether an Except value is an error. -/
def isErr {β : Type} (e : Except String β) : Bool :=
  match e with
  | Except.error _ => true
  | Except.ok _ => false

/-! ## PE data model (pe.rs over goblin's PE parser) -/

/-- A goblin re-export descriptor: by name or by ordinal, each with the
library it comes from. -/
inductive Reexport where
  | dllName : String → String → Reexport
  | dllOrdinal : Nat → String → Reexport
deriving DecidableEq, Repr

/-- A goblin PE import: name and file offset of the thunk. -/
structure PEImport where
  name : String
  offset : Nat
deriving DecidableEq, Repr

/-- A goblin PE export: optional name, optional re-export, rva. -/
structure PEExport where
  name : Option String
  reexport : Option Reexport
  rva : Nat
deriving DecidableEq, Repr

/-- A goblin-parsed PE image (the parts the source reads). -/
structure PEImage where
  imports : List PEImport
  exports : List PEExport
deriving DecidableEq, Repr

/-- Symbol maps of the PE side: string name to address. -/
abbrev PEMap := List (String × Nat)

/-- PEBinary::parse_iat: collect import name to thunk offset. -/
def parse_iat (pe : PEImage) : Except String PEMap :=
  Except.ok (pe.imports.foldl (fun m i => insertA m i.name i.offset) [])

/-- The name of one export entry: its name when present, an artificial
ordinal name when it is a by-ordinal re-export, and an error otherwise. -/
def exportName (x : PEExport) : Except String String :=
  match x.name with
  | some n => Except.ok n
  | none =>
    match x.reexport with
    | some (Reexport.dllOrdinal ordinal _) =>
      Except.ok ("ordinal_" ++ toString ordinal)
    | _ => Except.error "Could not parse export entry"

/-- The export list of parse_eat as name-address pairs; the first entry with
neither name nor by-ordinal re-export aborts the collection. -/
def eatEntries : List PEExport → Except String (List (String × Nat))
  | [] => Except.ok []
  | x :: rest =>
    match exportName x with
    | Except.error e => Except.error e
    | Except.ok n =>
      match eatEntries rest with
      | Except.error e => Except.error e
      | Except.ok es => Except.ok ((n, x.rva) :: es)

/-- PEBinary::parse_eat: collect export name to rva. -/
def parse_eat (pe : PEImage) : Except String PEMap :=
  match eatEntries pe.exports with
  | Except.error e => Except.error e
  | Except.ok entries =>
    Except.ok (entries.foldl (fun m e => insertA m e.1 e.2) [])

/-- The body of the EAT ingestion loop of PEBinary::new: both the prefixed
and the bare key are inserted unconditionally. -/
def eatStep (m : PEMap) (e : String × Nat) : PEMap :=
  insertA (insertA m ("eat." ++ e.1) e.2) e.1 e.2

/-- The body of the IAT ingestion loop of PEBinary::new: the prefixed key is
inserted unconditionally, the bare key only when absent. -/
def iatStep (m : PEMap) (e : String × Nat) : PEMap :=
  let m1 := insertA m ("iat." ++ e.1) e.2
  if containsA m1 e.1 then m1 else insertA m1 e.1 e.2

/-- The three maps an opened PE exposes. -/
structure PEBinary where
  iat : PEMap
  eat : PEMap
  symbols : PEMap
deriving DecidableEq, Repr

/-- PEBinary::new: IAT, then EAT, then the symbols map built by ingesting
the EAT entries first and the IAT entries second. -/
def PEBinary.new (pe : PEImage) : Except String PEBinary :=
  match parse_iat pe with
  | Except.error e => Except.error e
  | Except.ok iat =>
    match parse_eat pe with
    | Except.error e => Except.error e
    | Except.ok eat =>
      Except.ok ⟨iat, eat, iat.foldl iatStep (eat.foldl eatStep [])⟩

/-! ## Loader (binary_handling::from_path)

Path resolution and reading the file are collapsed into the File model: a
file carries the goblin parse of its bytes as a PE and as an ELF, absent
when goblin rejects that format (or the file could not be read, which the
source surfaces the same way, as a failed constructor). -/

/-- A file on disk, as seen by the two format constructors. -/
structure File where
  pe : Option PEImage
  elf : Option ElfImage

/-- PEBinary::new from a path: fails when the bytes do not parse as PE. -/
def openPE (f : File) : Except String PEBinary :=
  match f.pe with
  | some p => PEBinary.new p
  | none => Except.error "No valid PE"

/-- ELFBinary::new from a path: fails when the bytes do not parse as ELF. -/
def openELF (f : File) : Except String ELFBinary :=
  match f.elf with
  | some i => ELFBinary.new i
  | none => Except.error "No valid ELF"

/-- The result of from_path: a boxed handle of one of the two formats. -/
inductive BinHandle where
  | peBin : PEBinary → BinHandle
  | elfBin : ELFBinary → BinHandle
deriving DecidableEq, Repr

/-- binary_handling::from_path: try PE first; on any PE failure try ELF;
propagate the ELF error when both fail. -/
def from_path (f : File) : Except String BinHandle :=
  match openPE f with
  | Except.ok pe => Except.ok (BinHandle.peBin pe)
  | Except.error _ =>
    match openELF f with
    | Except.ok elf => Except.ok (BinHandle.elfBin elf)
    | Except.error e => Except.error e

/-! ## Concrete images used to instantiate the theorems -/

/-- The byte string "puts". -/
def putsB : List Nat := [112, 117, 116, 115]

/-- The byte string "main". -/
def mainB : List Nat := [109, 97, 105, 110]

/-- String table holding "" at 0, "puts" at 1 and "main" at 6. -/
def strtabC1 : List Nat :=
  [0, 112, 117, 116, 115, 0, 109, 97, 105, 110, 0, 0, 0, 0, 0, 0]

/-- A dynamically linked x86-64 image with one RELA relocation for puts
(GOT slot 0x404018), a .plt section at 0x1000 whose first candidate reads
that slot, and a static symbol main at 0x401000. -/
def imgC1 : ElfImage where
  e_machine := EM_X86_64
  is_64 := true
  little_endian := true
  program_headers := [PT_INTERP]
  section_headers :=
    [⟨0, 0, 0, 0, 0, 0, 0⟩,
     ⟨0, SHT_RELA, 2, 0, 100, 24, 24⟩,
     ⟨0, SHT_DYNSYM, 3, 0, 200, 48, 24⟩,
     ⟨0, 3, 0, 0, 300, 16, 0⟩,
     ⟨1, 1, 0, 0x1000, 400, 16, 16⟩,
     ⟨0, SHT_SYMTAB, 3, 0, 500, 24, 24⟩]
  shdr_strtab := [0, 46, 112, 108, 116, 0]
  dynamic := some [⟨DT_PLTGOT, 0x404000⟩]
  symtabParse := fun off _ =>
    if off = 200 then Except.ok [⟨0, 0⟩, ⟨1, 0⟩]
    else if off = 500 then Except.ok [⟨6, 0x401000⟩]
    else Except.error "unexpected symtab"
  strtabParse := fun off _ =>
    if off = 300 then Except.ok strtabC1 else Except.error "unexpected strtab"
  relocParse := fun off _ _ =>
    if off = 100 then Except.ok [⟨1, 0x404018⟩] else Except.error "unexpected reloc"
  sectionData := fun _ _ => List.replicate 16 0
  observe := fun sa => if sa = 0x1000 then some 0x404018 else none

/-- The static-symbol map of imgC1. -/
def staticsC1 : SymMap := [(mainB, 0x401000)]

/-- The handle produced by opening imgC1. -/
def bC1 : ELFBinary :=
  ⟨[(putsB, 0x404018)],
   [(putsB, 0x1000)],
   [(gotDot ++ putsB, 0x404018), (putsB, 0x1000), (pltDot ++ putsB, 0x1000),
    (mainB, 0x401000)]⟩

/-- A statically linked image whose lone symbol table names a string table
section index (9) that does not exist. -/
def imgC2 : ElfImage where
  e_machine := EM_X86_64
  is_64 := true
  little_endian := true
  program_headers := []
  section_headers := [⟨0, SHT_SYMTAB, 9, 0, 500, 24, 24⟩]
  shdr_strtab := [0]
  dynamic := none
  symtabParse := fun _ _ => Except.ok []
  strtabParse := fun _ _ => Except.error "unexpected strtab"
  relocParse := fun _ _ _ => Except.error "unexpected reloc"
  sectionData := fun _ _ => []
  observe := fun _ => none

/-- A dynamically linked image with no sections at all and a dynamic array
without DT_PLTGOT. -/
def imgC3 : ElfImage where
  e_machine := EM_X86_64
  is_64 := true
  little_endian := true
  program_headers := [PT_INTERP]
  section_headers := []
  shdr_strtab := [0]
  dynamic := some [⟨5, 77⟩]
  symtabParse := fun _ _ => Except.error "unexpected symtab"
  strtabParse := fun _ _ => Except.error "unexpected strtab"
  relocParse := fun _ _ _ => Except.error "unexpected reloc"
  sectionData := fun _ _ => []
  observe := fun _ => none

/-- A dynamically linked image of an unsupported architecture (e_machine
0x1234) that has a .plt section and a DT_PLTGOT entry. -/
def imgC4 : ElfImage where
  e_machine := 0x1234
  is_64 := true
  little_endian := true
  program_headers := [PT_INTERP]
  section_headers :=
    [⟨0, 0, 0, 0, 0, 0, 0⟩,
     ⟨1, 1, 0, 0x1000, 400, 16, 16⟩]
  shdr_strtab := [0, 46, 112, 108, 116, 0]
  dynamic := some [⟨DT_PLTGOT, 0x4000⟩]
  symtabParse := fun _ _ => Except.error "unexpected symtab"
  strtabParse := fun _ _ => Except.error "unexpected strtab"
  relocParse := fun _ _ _ => Except.error "unexpected reloc"
  sectionData := fun _ _ => List.replicate 16 0
  observe := fun _ => none

/-- A dynamically linked image with one RELA relocation whose r_offset is 0
for the symbol "x", so the GOT map stores the value 0. -/
def imgC5 : ElfImage where
  e_machine := EM_X86_64
  is_64 := true
  little_endian := true
  program_headers := [PT_INTERP]
  section_headers :=
    [⟨0, SHT_RELA, 1, 0, 100, 24, 24⟩,
     ⟨0, 0x1234, 2, 0, 200, 48, 24⟩,
     ⟨0, 3, 0, 0, 300, 8, 0⟩]
  shdr_strtab := [0]
  dynamic := some [⟨DT_PLTGOT, 0x4000⟩]
  symtabParse := fun off _ =>
    if off = 200 then Except.ok [⟨0, 0⟩, ⟨1, 0⟩] else Except.error "unexpected symtab"
  strtabParse := fun off _ =>
    if off = 300 then Except.ok [0, 120, 0, 0, 0, 0, 0, 0]
    else Except.error "unexpected strtab"
  relocParse := fun off _ _ =>
    if off = 100 then Except.ok [⟨1, 0⟩] else Except.error "unexpected reloc"
  sectionData := fun _ _ => []
  observe := fun _ => none

/-- The handle produced by opening imgC5: the GOT value of "x" is 0. -/
def bC5 : ELFBinary :=
  ⟨[([120], 0)], [], [([120], 0), (gotDot ++ [120], 0)]⟩

/-- Family of dynamically linked images with one RELA relocation (r_sym 1,
target ro) whose symbol's name offset stn points into the string table
tab; sval is the symbol's value.  Used to probe the off-the-end
string-table lookup in the GOT builder. -/
def mkImgC6 (tab : List Nat) (stn sval ro : Nat) : ElfImage where
  e_machine := EM_X86_64
  is_64 := true
  little_endian := true
  program_headers := [PT_INTERP]
  section_headers :=
    [⟨0, SHT_RELA, 1, 0, 100, 24, 24⟩,
     ⟨0, 0x1234, 2, 0, 200, 48, 24⟩,
     ⟨0, 3, 0, 0, 300, tab.length, 0⟩]
  shdr_strtab := [0]
  dynamic := some [⟨DT_PLTGOT, 0x4000⟩]
  symtabParse := fun off _ =>
    if off = 200 then Except.ok [⟨0, 0⟩, ⟨stn, sval⟩]
    else Except.error "unexpected symtab"
  strtabParse := fun off _ =>
    if off = 300 then Except.ok tab else Except.error "unexpected strtab"
  relocParse := fun off _ _ =>
    if off = 100 then Except.ok [⟨1, ro⟩] else Except.error "unexpected reloc"
  sectionData := fun _ _ => []
  observe := fun _ => none

/-- String table holding "" at 0, "puts" at 1, "plt.puts" at 6 and
"got.puts" at 15. -/
def strtabC9 : List Nat :=
  [0, 112, 117, 116, 115, 0, 112, 108, 116, 46, 112, 117, 116, 115, 0,
   103, 111, 116, 46, 112, 117, 116, 115, 0]

/-- Like imgC1, but the static symbol table holds symbols literally named
"plt.puts" (value 0x999) and "got.puts" (value 0x888) while puts is a key
of both the PLT and the GOT map. -/
def imgC9 : ElfImage where
  e_machine := EM_X86_64
  is_64 := true
  little_endian := true
  program_headers := [PT_INTERP]
  section_headers :=
    [⟨0, 0, 0, 0, 0, 0, 0⟩,
     ⟨0, SHT_RELA, 2, 0, 100, 24, 24⟩,
     ⟨0, SHT_DYNSYM, 3, 0, 200, 48, 24⟩,
     ⟨0, 3, 0, 0, 300, 24, 0⟩,
     ⟨1, 1, 0, 0x1000, 400, 16, 16⟩,
     ⟨0, SHT_SYMTAB, 3, 0, 500, 48, 24⟩]
  shdr_strtab := [0, 46, 112, 108, 116, 0]
  dynamic := some [⟨DT_PLTGOT, 0x404000⟩]
  symtabParse := fun off _ =>
    if off = 200 then Except.ok [⟨0, 0⟩, ⟨1, 0⟩]
    else if off = 500 then Except.ok [⟨6, 0x999⟩, ⟨15, 0x888⟩]
    else Except.error "unexpected symtab"
  strtabParse := fun off _ =>
    if off = 300 then Except.ok strtabC9 else Except.error "unexpected strtab"
  relocParse := fun off _ _ =>
    if off = 100 then Except.ok [⟨1, 0x404018⟩] else Except.error "unexpected reloc"
  sectionData := fun _ _ => List.replicate 16 0
  observe := fun sa => if sa = 0x1000 then some 0x404018 else none

/-- The static-symbol map of imgC9. -/
def staticsC9 : SymMap := [(gotDot ++ putsB, 0x888), (pltDot ++ putsB, 0x999)]

/-- The handle produced by opening imgC9. -/
def bC9 : ELFBinary :=
  ⟨[(putsB, 0x404018)],
   [(putsB, 0x1000)],
   [(gotDot ++ putsB, 0x404018), (putsB, 0x1000), (pltDot ++ putsB, 0x1000)]⟩

/-- A PE image with one import and no exports. -/
def peC8 : PEImage := ⟨[⟨"f", 0x10⟩], []⟩

/-- The handle produced by opening peC8. -/
def pbC8 : PEBinary := ⟨[("f", 0x10)], [], [("f", 0x10), ("iat.f", 0x10)]⟩

/-- A file that parses both as PE (peC8) and as ELF (imgC1). -/
def fileC8 : File := ⟨some peC8, some imgC1⟩

/-- A PE image whose only export has neither a name nor a re-export. -/
def peC10 : PEImage := ⟨[], [⟨none, none, 5⟩]⟩

/-- A file whose PE parse is peC10 and whose ELF parse is imgC1. -/
def fileC10 : File := ⟨some peC10, some imgC1⟩

/-! ## Lemmas about association-list maps -/

theorem findA_cons {α β : Type} [DecidableEq α] (p : α × β) (t : List (α × β)) (k : α) :
    findA (p :: t) k = if p.1 = k then some p.2 else findA t k := by
  by_cases h : p.1 = k <;> simp [findA, List.find?_cons, h]

theorem findA_eraseKeyA_ne {α β : Type} [DecidableEq α] (m : List (α × β)) (k k' : α)
    (h : k' ≠ k) :
    findA (eraseKeyA m k) k' = findA m k' := by
  induction m with
  | nil => rfl
  | cons p t ih =>
    by_cases hp : p.1 = k
    · have hpk : ¬ p.1 = k' := by rw [hp]; exact fun hh => h hh.symm
      have hk : ¬ k = k' := fun hh => h hh.symm
      simp [eraseKeyA, hp, findA_cons, hpk, hk, ih]
    · simp [eraseKeyA, hp, findA_cons, ih]

theorem findA_insertA_self {α β : Type} [DecidableEq α] (m : List (α × β)) (k : α) (v : β) :
    findA (insertA m k v) k = some v := by
  simp [insertA, findA_cons]

theorem findA_insertA_ne {α β : Type} [DecidableEq α] (m : List (α × β)) (k k' : α) (v : β)
    (h : k' ≠ k) :
    findA (insertA m k v) k' = findA m k' := by
  have hk : ¬ k = k' := fun hh => h hh.symm
  simp [insertA, findA_cons, hk, findA_eraseKeyA_ne m k k' h]

theorem mem_eraseKeyA {α β : Type} [DecidableEq α] {m : List (α × β)} {k : α}
    {p : α × β} (h : p ∈ eraseKeyA m k) : p ∈ m := by
  induction m with
  | nil => cases h
  | cons q t ih =>
    by_cases hq : q.1 = k
    · simp only [eraseKeyA, if_pos hq] at h
      exact List.mem_cons_of_mem q (ih h)
    · simp only [eraseKeyA, if_neg hq, List.mem_cons] at h
      rcases h with h | h
      · exact h ▸ List.mem_cons_self q t
      · exact List.mem_cons_of_mem q (ih h)

theorem mem_insertA {α β : Type} [DecidableEq α] {m : List (α × β)} {k : α} {v : β}
    {p : α × β} (h : p ∈ insertA m k v) : p = (k, v) ∨ p ∈ m := by
  simp only [insertA, List.mem_cons] at h
  rcases h with h | h
  · exact Or.inl h
  · exact Or.inr (mem_eraseKeyA h)

theorem mem_of_findA {α β : Type} [DecidableEq α] {m : List (α × β)} {k : α} {v : β}
    (h : findA m k = some v) : (k, v) ∈ m := by
  induction m with
  | nil => simp [findA] at h
  | cons p t ih =>
    rw [findA_cons] at h
    by_cases hp : p.1 = k
    · rw [if_pos hp] at h
      injection h with h2
      have hpv : p = (k, v) := by
        cases p
        simp only at hp h2
        rw [hp, h2]
      rw [← hpv]
      exact List.mem_cons_self p t
    · rw [if_neg hp] at h
      exact List.mem_cons_of_mem p (ih h)

theorem containsA_of_mem {α β : Type} [DecidableEq α] {m : List (α × β)} {k : α} {v : β}
    (h : (k, v) ∈ m) : containsA m k = true := by
  induction m with
  | nil => cases h
  | cons p t ih =>
    rcases List.mem_cons.mp h with h | h
    · simp [containsA, findA_cons, ← h]
    · by_cases hp : p.1 = k <;> simp [containsA, findA_cons, hp] at ih ⊢
      exact ih h

theorem containsA_of_findA {α β : Type} [DecidableEq α] {m : List (α × β)} {k : α} {v : β}
    (h : findA m k = some v) : containsA m k = true := by
  simp [containsA, h]

theorem findA_of_not_containsA {α β : Type} [DecidableEq α] {m : List (α × β)} {k : α}
    (h : containsA m k = false) : findA m k = none := by
  cases hf : findA m k with
  | none => rfl
  | some v => rw [containsA, hf] at h; cases h

/-! ## Fold and loop invariants -/

theorem foldl_inv_mem {α σ : Type} {P : α → Prop} (f : α → σ → α) :
    ∀ (l : List σ), (∀ acc e, e ∈ l → P acc → P (f acc e)) →
      ∀ acc, P acc → P (l.foldl f acc)
  | [], _, _, h0 => h0
  | e :: t, h, acc, h0 =>
    foldl_inv_mem f t (fun a x hx ha => h a x (List.mem_cons_of_mem e hx) ha)
      (f acc e) (h acc e (List.mem_cons_self e t) h0)

theorem eLoop_inv {σ : Type} {P : SymMap → Prop} (step : SymMap → σ → Except String SymMap)
    (h : ∀ acc s acc', P acc → step acc s = Except.ok acc' → P acc') :
    ∀ (l : List σ) (acc m : SymMap), P acc → eLoop step l acc = Except.ok m → P m := by
  intro l
  induction l with
  | nil =>
    intro acc m hP hE
    simp only [eLoop] at hE
    cases hE
    exact hP
  | cons s rest ih =>
    intro acc m hP hE
    simp only [eLoop] at hE
    cases hst : step acc s with
    | ok acc' => rw [hst] at hE; exact ih acc' m (h acc s acc' hP hst) hE
    | error e => rw [hst] at hE; cases hE

/-! ## Key sets are duplicate-free -/

theorem nodupK_nil {α β : Type} : nodupK ([] : List (α × β)) := by
  simp [nodupK, keysA]

theorem not_mem_keysA_eraseKeyA {α β : Type} [DecidableEq α] (m : List (α × β)) (k : α) :
    k ∉ keysA (eraseKeyA m k) := by
  induction m with
  | nil => simp [eraseKeyA, keysA]
  | cons p t ih =>
    by_cases hp : p.1 = k
    · simpa [eraseKeyA, hp] using ih
    · simp only [eraseKeyA, if_neg hp, keysA, List.map_cons, List.mem_cons]
      intro h
      rcases h with h | h
      · exact hp h.symm
      · exact ih h

theorem mem_keysA_of_eraseKeyA {α β : Type} [DecidableEq α] {m : List (α × β)} {k x : α}
    (h : x ∈ keysA (eraseKeyA m k)) : x ∈ keysA m := by
  rcases List.mem_map.mp h with ⟨p, hp, hpx⟩
  exact List.mem_map.mpr ⟨p, mem_eraseKeyA hp, hpx⟩

theorem nodupK_eraseKeyA {α β : Type} [DecidableEq α] {m : List (α × β)} (h : nodupK m)
    (k : α) : nodupK (eraseKeyA m k) := by
  induction m with
  | nil => exact h
  | cons p t ih =>
    simp only [nodupK, keysA, List.map_cons, List.nodup_cons] at h
    by_cases hp : p.1 = k
    · simpa only [nodupK, eraseKeyA, if_pos hp] using ih h.2
    · simp only [nodupK, eraseKeyA, if_neg hp, keysA, List.map_cons, List.nodup_cons]
      exact ⟨fun hm => h.1 (mem_keysA_of_eraseKeyA hm), ih h.2⟩

theorem nodupK_insertA {α β : Type} [DecidableEq α] {m : List (α × β)} (h : nodupK m)
    (k : α) (v : β) : nodupK (insertA m k v) := by
  simp only [nodupK, insertA, keysA, List.map_cons, List.nodup_cons]
  exact ⟨not_mem_keysA_eraseKeyA m k, nodupK_eraseKeyA h k⟩

/-! ## Behaviour of the ingestion loops of parse_symbols -/

/-- One ingestion step leaves the binding of a key n untouched when n is
not the step's prefixed key: the bare insert is conditional, so a
key that is already bound cannot be overwritten by it. -/
theorem prefStep_find {pre : List Nat} {m : SymMap} {e : List Nat × Nat} {n : List Nat}
    {v : Nat} (hpre : pre ++ e.1 ≠ n) (hv : findA m n = some v) :
    findA (prefStep pre m e) n = some v := by
  unfold prefStep
  have h1 : findA (insertA m (pre ++ e.1) e.2) n = some v := by
    rw [findA_insertA_ne _ _ _ _ (fun hh => hpre hh.symm)]
    exact hv
  by_cases hc : containsA (insertA m (pre ++ e.1) e.2) e.1
  · simp only [hc, if_true]
    exact h1
  · simp only [hc, Bool.false_eq_true, if_false]
    have hen : e.1 ≠ n := by
      intro hh
      have h2 := containsA_of_findA h1
      rw [← hh] at h2
      exact absurd h2 hc
    rw [findA_insertA_ne _ _ _ _ (fun hh => hen hh.symm)]
    exact h1

/-- One ingestion step leaves an unbound key n unbound when n is neither
the step's prefixed key nor its bare key. -/
theorem prefStep_find_none {pre : List Nat} {m : SymMap} {e : List Nat × Nat}
    {n : List Nat} (hpre : pre ++ e.1 ≠ n) (hbare : e.1 ≠ n)
    (hv : findA m n = none) :
    findA (prefStep pre m e) n = none := by
  unfold prefStep
  have h1 : findA (insertA m (pre ++ e.1) e.2) n = none := by
    rw [findA_insertA_ne _ _ _ _ (fun hh => hpre hh.symm)]
    exact hv
  by_cases hc : containsA (insertA m (pre ++ e.1) e.2) e.1
  · simp only [hc, if_true]
    exact h1
  · simp only [hc, Bool.false_eq_true, if_false]
    rw [findA_insertA_ne _ _ _ _ (fun hh => hbare hh.symm)]
    exact h1

/-- The ingestion fold preserves the binding of any key that is not among
its prefixed keys. -/
theorem prefFold_preserve {pre : List Nat} {n : List Nat} {v : Nat} :
    ∀ (l : List (List Nat × Nat)) (m : SymMap), (∀ e, e ∈ l → pre ++ e.1 ≠ n) →
      findA m n = some v → findA (l.foldl (prefStep pre) m) n = some v
  | [], _, _, hv => hv
  | e :: t, m, hl, hv =>
    prefFold_preserve t (prefStep pre m e)
      (fun x hx => hl x (List.mem_cons_of_mem e hx))
      (prefStep_find (hl e (List.mem_cons_self e t)) hv)

/-- The ingestion fold binds each prefixed key to the value of its entry,
provided the entry list has duplicate-free keys. -/
theorem prefFold_prefixed {pre : List Nat} :
    ∀ (l : List (List Nat × Nat)) (m : SymMap) (X : List Nat) (a : Nat),
      nodupK l → findA l X = some a →
      findA (l.foldl (prefStep pre) m) (pre ++ X) = some a := by
  intro l
  induction l with
  | nil => intro m X a _ hf; simp [findA] at hf
  | cons e t ih =>
    intro m X a hnd hf
    have hnd' : nodupK t := by
      simp only [nodupK, keysA, List.map_cons, List.nodup_cons] at hnd
      exact hnd.2
    rw [findA_cons] at hf
    by_cases he : e.1 = X
    · rw [if_pos he] at hf
      injection hf with hf2
      have hstep : findA (prefStep pre m e) (pre ++ X) = some a := by
        unfold prefStep
        have h1 : findA (insertA m (pre ++ e.1) e.2) (pre ++ X) = some a := by
          rw [he, hf2]
          exact findA_insertA_self _ _ _
        by_cases hc : containsA (insertA m (pre ++ e.1) e.2) e.1
        · simp only [hc, if_true]
          exact h1
        · simp only [hc, Bool.false_eq_true, if_false]
          have hne : e.1 ≠ pre ++ X := by
            intro hh
            have h2 := containsA_of_findA h1
            rw [← hh] at h2
            exact absurd h2 hc
          rw [findA_insertA_ne _ _ _ _ (fun hh => hne hh.symm)]
          exact h1
      have hX : X ∉ keysA t := by
        simp only [nodupK, keysA, List.map_cons, List.nodup_cons] at hnd
        rw [← he]
        exact hnd.1
      have hcond : ∀ x, x ∈ t → pre ++ x.1 ≠ pre ++ X := by
        intro x hx hh
        have : x.1 = X := List.append_cancel_left hh
        exact hX (this ▸ List.mem_map.mpr ⟨x, hx, rfl⟩)
      exact prefFold_preserve t (prefStep pre m e) hcond hstep
    · rw [if_neg he] at hf
      exact ih (prefStep pre m e) X a hnd' hf

/-- The ingestion fold binds the bare key of each entry whose name is not
already bound, provided the entry list has duplicate-free keys and the
name is not among the prefixed keys. -/
theorem prefFold_bare {pre : List Nat} :
    ∀ (l : List (List Nat × Nat)) (m : SymMap) (n : List Nat) (a : Nat),
      nodupK l → findA l n = some a → findA m n = none →
      (∀ e, e ∈ l → pre ++ e.1 ≠ n) →
      findA (l.foldl (prefStep pre) m) n = some a := by
  intro l
  induction l with
  | nil => intro m n a _ hf; simp [findA] at hf
  | cons e t ih =>
    intro m n a hnd hf hnone hl
    have hnd' : nodupK t := by
      simp only [nodupK, keysA, List.map_cons, List.nodup_cons] at hnd
      exact hnd.2
    rw [findA_cons] at hf
    by_cases he : e.1 = n
    · rw [if_pos he] at hf
      injection hf with hf2
      have hstep : findA (prefStep pre m e) n = some a := by
        unfold prefStep
        have h1 : findA (insertA m (pre ++ e.1) e.2) n = none := by
          rw [findA_insertA_ne _ _ _ _
            (fun hh => (hl e (List.mem_cons_self e t)) hh.symm)]
          exact hnone
        have hc : containsA (insertA m (pre ++ e.1) e.2) e.1 = false := by
          rw [← he] at h1
          simp [containsA, h1]
        simp only [hc, Bool.false_eq_true, if_false]
        rw [← he, ← hf2]
        exact findA_insertA_self _ _ _
      have hcond : ∀ x, x ∈ t → pre ++ x.1 ≠ n :=
        fun x hx => hl x (List.mem_cons_of_mem e hx)
      exact prefFold_preserve t (prefStep pre m e) hcond hstep
    · rw [if_neg he] at hf
      have hstep : findA (prefStep pre m e) n = none :=
        prefStep_find_none (hl e (List.mem_cons_self e t)) he hnone
      exact ih (prefStep pre m e) n a hnd' hf hstep
        (fun x hx => hl x (List.mem_cons_of_mem e hx))

/-- Keys prefixed with "got." are never equal to keys prefixed with "plt.". -/
theorem gotDot_ne_pltDot (u v : List Nat) : gotDot ++ u ≠ pltDot ++ v := by
  intro h
  simp [gotDot, pltDot] at h

/-! ## Structure of the parse passes -/

theorem elf_new_elim {img : ElfImage} {b : ELFBinary}
    (h : ELFBinary.new img = Except.ok b) :
    parse_got img = Except.ok b.got ∧ parse_plt img b.got = Except.ok b.plt ∧
    parse_symbols img b.plt b.got = Except.ok b.symbols := by
  unfold ELFBinary.new at h
  cases h1 : parse_got img with
  | error e => simp only [h1] at h; cases h
  | ok got =>
    simp only [h1] at h
    cases h2 : parse_plt img got with
    | error e => simp only [h2] at h; cases h
    | ok plt =>
      simp only [h2] at h
      cases h3 : parse_symbols img plt got with
      | error e => simp only [h3] at h; cases h
      | ok syms =>
        simp only [h3] at h
        cases h
        exact ⟨rfl, h2, h3⟩

theorem parse_symbols_elim {img : ElfImage} {plt got syms statics : SymMap}
    (h : parse_symbols img plt got = Except.ok syms)
    (hs : parse_statics img = Except.ok statics) :
    syms = got.foldl (prefStep gotDot) (plt.foldl (prefStep pltDot) statics) := by
  unfold parse_symbols at h
  rw [hs] at h
  cases h
  rfl

theorem relocApply_nodup {symbols : List Sym} {strs : List Nat} {m : SymMap} {r : Reloc}
    (h : nodupK m) : nodupK (relocApply symbols strs m r) := by
  unfold relocApply
  split
  · exact h
  · split
    · exact h
    · split
      · exact h
      · exact nodupK_insertA h _ _

theorem gotStep_nodup (img : ElfImage) {acc : SymMap} {s : SectionHeader} {acc' : SymMap}
    (h : nodupK acc) (hs : gotStep img acc s = Except.ok acc') : nodupK acc' := by
  unfold gotStep at hs
  split at hs
  · cases hs; exact h
  · cases hq1 : img.section_headers.get? s.sh_link with
    | none => simp only [hq1] at hs; cases hs
    | some symSec =>
      simp only [hq1] at hs
      cases hq2 : img.symtabParse symSec.sh_offset (symSec.sh_size / symSec.sh_entsize) with
      | error e => simp only [hq2] at hs; cases hs
      | ok symbols =>
        simp only [hq2] at hs
        cases hq3 : img.section_headers.get? symSec.sh_link with
        | none => simp only [hq3] at hs; cases hs
        | some strSec =>
          simp only [hq3] at hs
          cases hq4 : img.strtabParse strSec.sh_offset strSec.sh_size with
          | error e => simp only [hq4] at hs; cases hs
          | ok strs =>
            simp only [hq4] at hs
            cases hq5 : img.relocParse s.sh_offset s.sh_size (s.sh_type == SHT_RELA) with
            | error e => simp only [hq5] at hs; cases hs
            | ok relocs =>
              simp only [hq5] at hs
              cases hs
              exact foldl_inv_mem _ _ (fun a r _ ha => relocApply_nodup ha) _ h

theorem parse_got_nodup {img : ElfImage} {m : SymMap}
    (h : parse_got img = Except.ok m) : nodupK m := by
  unfold parse_got at h
  split at h
  · cases h; exact nodupK_nil
  · exact eLoop_inv (gotStep img) (fun acc s acc' hP hs => gotStep_nodup img hP hs)
      _ _ _ nodupK_nil h

theorem pltInner_nodup {gt : List (Nat × List Nat)} {m : SymMap} {pg : Nat × Nat}
    (h : nodupK m) :
    nodupK (match findA gt pg.2 with
      | some key => insertA m key pg.1
      | none => m) := by
  split
  · exact nodupK_insertA h _ _
  · exact h

theorem pltSecStep_nodup (img : ElfImage) (dt : Nat) (gt : List (Nat × List Nat))
    {acc : SymMap} {osec : Option SectionHeader} {acc' : SymMap}
    (h : nodupK acc) (hs : pltSecStep img dt gt acc osec = Except.ok acc') :
    nodupK acc' := by
  unfold pltSecStep at hs
  split at hs
  · cases hs; exact h
  · split at hs
    · cases hs
    · cases hs
      exact foldl_inv_mem _ _ (fun a pg _ ha => pltInner_nodup ha) _ h

theorem parse_plt_nodup {img : ElfImage} {g m : SymMap}
    (h : parse_plt img g = Except.ok m) : nodupK m := by
  unfold parse_plt at h
  split at h
  · cases h; exact nodupK_nil
  · split at h
    · cases h
    · split at h
      · cases h
      · exact eLoop_inv _ (fun acc s acc' hP hs => pltSecStep_nodup _ _ _ hP hs)
          _ _ _ nodupK_nil h

/-! ## PLT keys come from the GOT -/

theorem invertMap_mem {g : SymMap} {p : Nat × List Nat} (h : p ∈ invertMap g) :
    containsA g p.2 = true := by
  have hstep : ∀ (acc : List (Nat × List Nat)) (e : List Nat × Nat), e ∈ g →
      (∀ q, q ∈ acc → containsA g q.2 = true) →
      ∀ q, q ∈ insertA acc e.2 e.1 → containsA g q.2 = true := by
    intro acc e he hacc q hq
    rcases mem_insertA hq with hq | hq
    · rw [hq]
      have he' : (e.1, e.2) ∈ g := by rw [Prod.mk.eta]; exact he
      exact containsA_of_mem he'
    · exact hacc q hq
  have hall := @foldl_inv_mem (List (Nat × List Nat)) (List Nat × Nat)
    (fun m => ∀ q, q ∈ m → containsA g q.2 = true)
    (fun m e => insertA m e.2 e.1) g hstep []
    (fun q hq => absurd hq (List.not_mem_nil q))
  exact hall p h

theorem pltSecStep_keys (img : ElfImage) (dt : Nat) {g : SymMap}
    {acc : SymMap} {osec : Option SectionHeader} {acc' : SymMap}
    (h : ∀ p, p ∈ acc → containsA g p.1 = true)
    (hs : pltSecStep img dt (invertMap g) acc osec = Except.ok acc') :
    ∀ p, p ∈ acc' → containsA g p.1 = true := by
  unfold pltSecStep at hs
  split at hs
  · cases hs; exact h
  · split at hs
    · cases hs
    · cases hs
      rename_i pga hpga
      have hstep : ∀ (a : SymMap) (pg : Nat × Nat), pg ∈ pga →
          (∀ q, q ∈ a → containsA g q.1 = true) →
          ∀ q, q ∈ (match findA (invertMap g) pg.2 with
            | some key => insertA a key pg.1
            | none => a) → containsA g q.1 = true := by
        intro a pg _ ha q hq
        split at hq
        case h_1 key hkey =>
          rcases mem_insertA hq with hq | hq
          · rw [hq]
            exact invertMap_mem (mem_of_findA hkey)
          · exact ha q hq
        case h_2 => exact ha q hq
      exact @foldl_inv_mem SymMap (Nat × Nat)
        (fun m => ∀ q, q ∈ m → containsA g q.1 = true) _ pga hstep acc h

theorem parse_plt_keys {img : ElfImage} {g m : SymMap}
    (h : parse_plt img g = Except.ok m) :
    ∀ p, p ∈ m → containsA g p.1 = true := by
  unfold parse_plt at h
  split at h
  · cases h; exact fun p hp => absurd hp (List.not_mem_nil p)
  · split at h
    · cases h
    · split at h
      · cases h
      · exact eLoop_inv _ (fun acc s acc' hP hs => pltSecStep_keys img _ hP hs)
          _ _ _ (fun p hp => absurd hp (List.not_mem_nil p)) h

/-! ## Claim theorems -/

/-- C2 (amended): for an ELF with no PT_INTERP program header the GOT and
PLT passes short-circuit and always succeed with empty maps, so when the
open succeeds both exposed maps are empty; the open itself can still fail
in static symbol parsing. -/
theorem c2_static_linked_maps_empty (img : ElfImage)
    (h : img.program_headers.all (fun pt => pt != PT_INTERP) = true) :
    parse_got img = Except.ok [] ∧ (∀ g, parse_plt img g = Except.ok []) ∧
    (∀ b, ELFBinary.new img = Except.ok b → b.got = [] ∧ b.plt = []) := by
  have hg : parse_got img = Except.ok [] := by simp [parse_got, h]
  have hp : ∀ g, parse_plt img g = Except.ok [] := by
    intro g
    simp [parse_plt, h]
  refine ⟨hg, hp, ?_⟩
  intro b hb
  obtain ⟨h1, h2, _⟩ := elf_new_elim hb
  rw [hg] at h1
  injection h1 with h1
  rw [hp b.got] at h2
  injection h2 with h2
  exact ⟨h1.symm, h2.symm⟩

/-- C2 (counterexample): imgC2 is statically linked, yet opening it fails,
because its symbol table names a string-table section that does not
exist; so a statically linked ELF does not always open successfully. -/
theorem c2_counterexample :
    imgC2.program_headers.all (fun pt => pt != PT_INTERP) = true ∧
    isErr (ELFBinary.new imgC2) = true := by decide

/-- C2 (witness): the amended theorem applied to imgC2. -/
theorem c2_witness :
    parse_got imgC2 = Except.ok [] ∧ parse_plt imgC2 [] = Except.ok [] :=
  ⟨(c2_static_linked_maps_empty imgC2 (by decide)).1,
   (c2_static_linked_maps_empty imgC2 (by decide)).2.1 []⟩

/-- C3 (amended): for a dynamically linked ELF, a dynamic array without a
DT_PLTGOT entry (or a missing dynamic array) makes PLT resolution fail
unconditionally, whether or not any PLT section exists. -/
theorem c3_missing_pltgot_always_fatal (img : ElfImage) (g : SymMap)
    (hdyn : img.program_headers.all (fun pt => pt != PT_INTERP) = false)
    (hpg : ∀ l, img.dynamic = some l →
      l.find? (fun d => d.d_tag == DT_PLTGOT) = none) :
    isErr (parse_plt img g) = true := by
  unfold parse_plt
  simp only [hdyn, Bool.false_eq_true, if_false]
  cases hd : img.dynamic with
  | none => simp [isErr]
  | some l => simp [hpg l hd, isErr]

/-- C3 (counterexample): imgC3 is dynamically linked, has none of the three
PLT sections, and PLT resolution still fails with the DT_PLTGOT error,
refuting the claim that it would succeed with an empty map. -/
theorem c3_counterexample :
    imgC3.program_headers = [PT_INTERP] ∧
    get_section_by_name imgC3 dotPlt = none ∧
    get_section_by_name imgC3 dotPltGot = none ∧
    get_section_by_name imgC3 dotPltSec = none ∧
    parse_plt imgC3 [] = Except.error "Failed to get DT_PLTGOT information" := by
  decide

/-- C3 (witness): the amended theorem applied to imgC3. -/
theorem c3_witness : isErr (parse_plt imgC3 []) = true :=
  c3_missing_pltgot_always_fatal imgC3 [] (by decide)
    (fun l hl => by
      injection hl with hl
      rw [← hl]
      decide)

/-- C4 (amended): for a dynamically linked ELF of an unsupported
architecture that has at least one PLT section and a DT_PLTGOT entry,
GOT parsing still runs and can succeed, but PLT resolution fails with
the unsupported-architecture error and the whole open fails with that
error, so no maps are exposed and symbol parsing is never reached. -/
theorem c4_unsupported_arch_aborts_open (img : ElfImage) (g : SymMap)
    (hdyn : img.program_headers.all (fun pt => pt != PT_INTERP) = false)
    (harch : supportedMachine img.e_machine = false)
    (hsec : ((get_section_by_name img dotPlt).isSome
      || (get_section_by_name img dotPltGot).isSome
      || (get_section_by_name img dotPltSec).isSome) = true)
    (hpg : ∃ l d, img.dynamic = some l ∧
      l.find? (fun x => x.d_tag == DT_PLTGOT) = some d)
    (hgot : parse_got img = Except.ok g) :
    parse_plt img g = Except.error "Unsupported architecture" ∧
    ELFBinary.new img = Except.error "Unsupported architecture" := by
  obtain ⟨l, d, hl, hd⟩ := hpg
  have hemu : ∀ (s : SectionHeader) (acc : SymMap),
      pltSecStep img d.d_val (invertMap g) acc (some s) =
        Except.error "Unsupported architecture" := by
    intro s acc
    unfold pltSecStep emulate_plt_instructions
    simp [harch]
  have hnone : ∀ (dt : Nat) (gt : List (Nat × List Nat)) (acc : SymMap),
      pltSecStep img dt gt acc none = Except.ok acc := fun _ _ _ => rfl
  have hplt : parse_plt img g = Except.error "Unsupported architecture" := by
    unfold parse_plt
    simp only [hdyn, Bool.false_eq_true, if_false, hl, hd]
    cases ho1 : get_section_by_name img dotPlt with
    | some s =>
      simp only [eLoop]
      rw [hemu s]
    | none =>
      simp only [eLoop, hnone]
      cases ho2 : get_section_by_name img dotPltGot with
      | some s => rw [hemu s]
      | none =>
        simp only [hnone]
        cases ho3 : get_section_by_name img dotPltSec with
        | some s => rw [hemu s]
        | none =>
          rw [ho1, ho2, ho3] at hsec
          simp at hsec
  have hnew : ELFBinary.new img = Except.error "Unsupported architecture" := by
    unfold ELFBinary.new
    simp only [hgot, hplt]
  exact ⟨hplt, hnew⟩

/-- C4 (counterexample): imgC4 is dynamically linked with an unsupported
architecture and a .plt section; GOT parsing succeeds, but the open as a
whole fails, so the open does not produce the GOT and symbols maps as
the claim states. -/
theorem c4_counterexample :
    supportedMachine imgC4.e_machine = false ∧
    parse_got imgC4 = Except.ok [] ∧
    parse_plt imgC4 [] = Except.error "Unsupported architecture" ∧
    ELFBinary.new imgC4 = Except.error "Unsupported architecture" := by decide

/-- C4 (witness): the amended theorem applied to imgC4. -/
theorem c4_witness :
    parse_plt imgC4 [] = Except.error "Unsupported architecture" ∧
    ELFBinary.new imgC4 = Except.error "Unsupported architecture" :=
  c4_unsupported_arch_aborts_open imgC4 [] (by decide) (by decide) (by decide)
    ⟨[⟨DT_PLTGOT, 0x4000⟩], ⟨DT_PLTGOT, 0x4000⟩, rfl, by decide⟩ (by decide)

/-- Entries produced from a symbol list whose values are all non-zero have
non-zero values. -/
theorem symsToEntries_nonzero {strs : List Nat} :
    ∀ (l : List Sym), (∀ x, x ∈ l → x.st_value ≠ 0) →
      ∀ es, symsToEntries strs l = Except.ok es → ∀ e, e ∈ es → e.2 ≠ 0 := by
  intro l
  induction l with
  | nil =>
    intro _ es h e he
    cases h
    cases he
  | cons x t ih =>
    intro hl es h e he
    unfold symsToEntries at h
    cases hn : strtabGet strs x.st_name with
    | none => simp only [hn] at h; cases h
    | some nm =>
      simp only [hn] at h
      cases ht : symsToEntries strs t with
      | error er => simp only [ht] at h; cases h
      | ok es2 =>
        simp only [ht] at h
        cases h
        rcases List.mem_cons.mp he with he | he
        · rw [he]
          exact hl x (List.mem_cons_self x t)
        · exact ih (fun y hy => hl y (List.mem_cons_of_mem x hy)) es2 ht e he

/-- One static-ingestion section step preserves the fact that all stored
values are non-zero, because zero-valued symbols are filtered out. -/
theorem staticsStep_nonzero (img : ElfImage) {acc : SymMap} {s : SectionHeader}
    {acc2 : SymMap} (h : ∀ p, p ∈ acc → p.2 ≠ 0)
    (hs : staticsStep img acc s = Except.ok acc2) : ∀ p, p ∈ acc2 → p.2 ≠ 0 := by
  unfold staticsStep at hs
  split at hs
  · cases hs; exact h
  · cases hq1 : img.symtabParse s.sh_offset (s.sh_size / s.sh_entsize) with
    | error e => simp only [hq1] at hs; cases hs
    | ok symtab =>
      simp only [hq1] at hs
      cases hq2 : img.section_headers.get? s.sh_link with
      | none => simp only [hq2] at hs; cases hs
      | some sss =>
        simp only [hq2] at hs
        cases hq3 : img.strtabParse sss.sh_offset sss.sh_size with
        | error e => simp only [hq3] at hs; cases hs
        | ok strs =>
          simp only [hq3] at hs
          cases hq4 : symsToEntries strs (symtab.filter (fun x => x.st_value != 0)) with
          | error e => simp only [hq4] at hs; cases hs
          | ok entries =>
            simp only [hq4] at hs
            cases hs
            have hent : ∀ e, e ∈ entries → e.2 ≠ 0 := by
              apply symsToEntries_nonzero _ _ _ hq4
              intro x hx
              have hfx := List.mem_filter.mp hx
              simpa using hfx.2
            exact @foldl_inv_mem SymMap (List Nat × Nat)
              (fun m => ∀ p, p ∈ m → p.2 ≠ 0)
              (fun m e => insertA m e.1 e.2) entries
              (fun a e he ha q hq => by
                rcases mem_insertA hq with hq | hq
                · rw [hq]
                  exact hent e he
                · exact ha q hq) acc h

/-- C5 (amended): every value ingested from the static symbol tables is
non-zero (zero-valued symbols are dropped); the GOT, PLT, IAT and EAT
maps store addresses unfiltered, so they can contain the value 0. -/
theorem c5_static_values_nonzero (img : ElfImage) (statics : SymMap)
    (hs : parse_statics img = Except.ok statics) :
    ∀ p, p ∈ statics → p.2 ≠ 0 := by
  unfold parse_statics at hs
  exact eLoop_inv _ (fun acc s acc2 hP h => staticsStep_nonzero img hP h) _ _ _
    (fun p hp => absurd hp (List.not_mem_nil p)) hs

/-- C5 (counterexample): imgC5 opens successfully and its GOT map, and
hence its symbols map, binds the name "x" to the address 0, refuting the
claim that no exposed map value is zero. -/
theorem c5_counterexample :
    ELFBinary.new imgC5 = Except.ok bC5 ∧
    findA bC5.got [120] = some 0 ∧
    findA bC5.symbols (gotDot ++ [120]) = some 0 := by decide

/-- C5 (witness): the amended theorem applied to imgC1 and its static entry
for main. -/
theorem c5_witness :
    parse_statics imgC1 = Except.ok staticsC1 ∧ (mainB, 0x401000).2 ≠ 0 :=
  ⟨by decide,
   c5_static_values_nonzero imgC1 staticsC1 (by decide) (mainB, 0x401000) (by decide)⟩

/-- C6 (amended): a relocation whose symbol-name offset falls off the end
of the associated string table is silently skipped by the GOT builder:
the pass succeeds without the entry instead of failing. -/
theorem c6_offend_lookup_skipped (tab : List Nat) (stn sval ro : Nat)
    (hoff : tab.length ≤ stn) :
    parse_got (mkImgC6 tab stn sval ro) = Except.ok [] := by
  have hget : strtabGet tab stn = none := by simp [strtabGet, hoff]
  simp [parse_got, mkImgC6, eLoop, gotStep, relocApply, hget,
    SHT_REL, SHT_RELA, SHN_UNDEF, PT_INTERP]

/-- C6 (counterexample): a concrete image whose only relocation names a
symbol whose name offset (99) is past the end of the 3-byte string
table; the GOT build succeeds with an empty map and the whole open
succeeds, refuting the claim that such a lookup is fatal. -/
theorem c6_counterexample :
    strtabGet [0, 120, 0] 99 = none ∧
    (mkImgC6 [0, 120, 0] 99 5 0x2000).relocParse 100 24 true =
      Except.ok [⟨1, 0x2000⟩] ∧
    parse_got (mkImgC6 [0, 120, 0] 99 5 0x2000) = Except.ok [] ∧
    ELFBinary.new (mkImgC6 [0, 120, 0] 99 5 0x2000) = Except.ok ⟨[], [], []⟩ := by
  decide

/-- C6 (witness): the amended theorem applied at a concrete instance. -/
theorem c6_witness : parse_got (mkImgC6 [0, 120, 0] 99 5 0x2000) = Except.ok [] :=
  c6_offend_lookup_skipped [0, 120, 0] 99 5 0x2000 (by decide)

/-- C7 (confirmed): every key of the PLT map of a successfully opened ELF
is also a key of its GOT map, because PLT entries are only created by
looking the observed address up in the inverse GOT map. -/
theorem c7_plt_keys_subset_got (img : ElfImage) (b : ELFBinary)
    (hb : ELFBinary.new img = Except.ok b) :
    ∀ n a, findA b.plt n = some a → containsA b.got n = true := by
  obtain ⟨h1, h2, h3⟩ := elf_new_elim hb
  intro n a hf
  exact parse_plt_keys h2 (n, a) (mem_of_findA hf)

/-- C7 (witness): the theorem applied to imgC1, whose PLT binds puts. -/
theorem c7_witness : containsA bC1.got putsB = true :=
  c7_plt_keys_subset_got imgC1 bC1 (by decide) putsB 0x1000 (by decide)

/-- C8 (confirmed): from_path tries the PE constructor first and returns
its handle whenever it succeeds (so a file accepted by both parsers is
treated as PE); the ELF constructor runs only when PE fails; when both
fail the ELF error is returned and no handle is produced. -/
theorem c8_pe_attempted_first (f : File) :
    (∀ pb, openPE f = Except.ok pb →
      from_path f = Except.ok (BinHandle.peBin pb)) ∧
    (∀ e eb, openPE f = Except.error e → openELF f = Except.ok eb →
      from_path f = Except.ok (BinHandle.elfBin eb)) ∧
    (∀ e e2, openPE f = Except.error e → openELF f = Except.error e2 →
      from_path f = Except.error e2) := by
  refine ⟨?_, ?_, ?_⟩
  · intro pb h
    unfold from_path
    simp only [h]
  · intro e eb h h2
    unfold from_path
    simp only [h, h2]
  · intro e e2 h h2
    unfold from_path
    simp only [h, h2]

/-- C8 (witness): fileC8 parses as PE and as ELF; from_path returns the PE
handle. -/
theorem c8_witness : from_path fileC8 = Except.ok (BinHandle.peBin pbC8) :=
  (c8_pe_attempted_first fileC8).1 pbC8 (by decide)

/-- An export entry with neither a name nor a by-ordinal re-export makes
the whole export collection fail. -/
theorem eatEntries_err {x : PEExport} (hname : x.name = none)
    (hre : ∀ o lib, x.reexport ≠ some (Reexport.dllOrdinal o lib)) :
    ∀ l, x ∈ l → isErr (eatEntries l) = true := by
  have hx : exportName x = Except.error "Could not parse export entry" := by
    unfold exportName
    rw [hname]
    cases hr : x.reexport with
    | none => rfl
    | some r =>
      cases r with
      | dllName a b => rfl
      | dllOrdinal o lib => exact absurd hr (hre o lib)
  intro l
  induction l with
  | nil => intro h; cases h
  | cons y t ih =>
    intro hmem
    rcases List.mem_cons.mp hmem with h | h
    · unfold eatEntries
      rw [← h, hx]
      rfl
    · unfold eatEntries
      cases he : exportName y with
      | error e => rfl
      | ok n =>
        cases het : eatEntries t with
        | error e => rfl
        | ok es =>
          have := ih h
          rw [het] at this
          cases this

/-- C10 (confirmed): a PE export entry with neither a name nor a by-ordinal
re-export makes export parsing, and hence the PE open, fail with no EAT
produced, and from_path then attempts ELF parsing of the same file. -/
theorem c10_nameless_export_fails_pe_open (f : File) (p : PEImage) (x : PEExport)
    (hf : f.pe = some p) (hx : x ∈ p.exports) (hname : x.name = none)
    (hre : ∀ o lib, x.reexport ≠ some (Reexport.dllOrdinal o lib)) :
    isErr (parse_eat p) = true ∧ isErr (openPE f) = true ∧
    (∀ eb, openELF f = Except.ok eb →
      from_path f = Except.ok (BinHandle.elfBin eb)) ∧
    (∀ e2, openELF f = Except.error e2 → from_path f = Except.error e2) := by
  have heat : isErr (eatEntries p.exports) = true := eatEntries_err hname hre _ hx
  have hpe : isErr (parse_eat p) = true := by
    unfold parse_eat
    cases he : eatEntries p.exports with
    | error e => rfl
    | ok es =>
      rw [he] at heat
      cases heat
  have hopen : isErr (openPE f) = true := by
    simp only [openPE, hf]
    unfold PEBinary.new
    cases hie : parse_iat p with
    | error e => rfl
    | ok iat =>
      simp only [hie]
      cases he2 : parse_eat p with
      | error e => rfl
      | ok eat =>
        rw [he2] at hpe
        cases hpe
  have hfp : ∀ r, openPE f = r → isErr r = true → (∀ eb, openELF f = Except.ok eb →
      from_path f = Except.ok (BinHandle.elfBin eb)) ∧
      (∀ e2, openELF f = Except.error e2 → from_path f = Except.error e2) := by
    intro r hr hrerr
    cases r with
    | ok pb => cases hrerr
    | error e =>
      constructor
      · intro eb heb
        unfold from_path
        simp only [hr, heb]
      · intro e2 he2
        unfold from_path
        simp only [hr, he2]
  exact ⟨hpe, hopen, hfp (openPE f) rfl hopen⟩

/-- C10 (witness): the theorem applied to fileC10, whose lone export has
neither name nor re-export and whose bytes parse as ELF image imgC1. -/
theorem c10_witness :
    isErr (parse_eat peC10) = true ∧
    from_path fileC10 = Except.ok (BinHandle.elfBin bC1) :=
  ⟨(c10_nameless_export_fails_pe_open fileC10 peC10 ⟨none, none, 5⟩ rfl
      (by decide) rfl (fun _ _ h => Option.noConfusion h)).1,
   (c10_nameless_export_fails_pe_open fileC10 peC10 ⟨none, none, 5⟩ rfl
      (by decide) rfl (fun _ _ h => Option.noConfusion h)).2.2.1 bC1 (by decide)⟩

/-- C1 (confirmed): resolution priority on bare names is static over PLT
over GOT, and the prefixed keys are always materialized.  A bare name is
one that is not itself of the prefixed form plt.X for a PLT key X or
got.X for a GOT key X (those keys are governed by the prefixed-key rule,
which always rebinds them). -/
theorem c1_symbol_priority (img : ElfImage) (b : ELFBinary) (statics : SymMap)
    (hb : ELFBinary.new img = Except.ok b)
    (hs : parse_statics img = Except.ok statics) :
    (∀ n v, findA statics n = some v →
      (∀ X, X ∈ keysA b.plt → n ≠ pltDot ++ X) →
      (∀ X, X ∈ keysA b.got → n ≠ gotDot ++ X) →
      get_sym_addr b n = Except.ok v) ∧
    (∀ n a, findA statics n = none → findA b.plt n = some a →
      (∀ X, X ∈ keysA b.plt → n ≠ pltDot ++ X) →
      (∀ X, X ∈ keysA b.got → n ≠ gotDot ++ X) →
      get_sym_addr b n = Except.ok a) ∧
    (∀ n a, findA b.plt n = some a →
      get_sym_addr b (pltDot ++ n) = Except.ok a) ∧
    (∀ n a, findA b.got n = some a →
      get_sym_addr b (gotDot ++ n) = Except.ok a) := by
  obtain ⟨h1, h2, h3⟩ := elf_new_elim hb
  have hsym : b.symbols =
      b.got.foldl (prefStep gotDot) (b.plt.foldl (prefStep pltDot) statics) :=
    parse_symbols_elim h3 hs
  have hndplt : nodupK b.plt := parse_plt_nodup h2
  have hndgot : nodupK b.got := parse_got_nodup h1
  refine ⟨?_, ?_, ?_, ?_⟩
  · intro n v hv hplt hgot
    have e1 : findA (b.plt.foldl (prefStep pltDot) statics) n = some v :=
      prefFold_preserve b.plt statics
        (fun e he hh => hplt e.1 (List.mem_map.mpr ⟨e, he, rfl⟩) hh.symm) hv
    have e2 : findA b.symbols n = some v := by
      rw [hsym]
      exact prefFold_preserve b.got _
        (fun e he hh => hgot e.1 (List.mem_map.mpr ⟨e, he, rfl⟩) hh.symm) e1
    simp [get_sym_addr, e2]
  · intro n a hnone hplt hcplt hcgot
    have e1 : findA (b.plt.foldl (prefStep pltDot) statics) n = some a :=
      prefFold_bare b.plt statics n a hndplt hplt hnone
        (fun e he hh => hcplt e.1 (List.mem_map.mpr ⟨e, he, rfl⟩) hh.symm)
    have e2 : findA b.symbols n = some a := by
      rw [hsym]
      exact prefFold_preserve b.got _
        (fun e he hh => hcgot e.1 (List.mem_map.mpr ⟨e, he, rfl⟩) hh.symm) e1
    simp [get_sym_addr, e2]
  · intro n a hf
    have e1 : findA (b.plt.foldl (prefStep pltDot) statics) (pltDot ++ n) = some a :=
      prefFold_prefixed b.plt statics n a hndplt hf
    have e2 : findA b.symbols (pltDot ++ n) = some a := by
      rw [hsym]
      exact prefFold_preserve b.got _ (fun e he => gotDot_ne_pltDot e.1 n) e1
    simp [get_sym_addr, e2]
  · intro n a hf
    have e2 : findA b.symbols (gotDot ++ n) = some a := by
      rw [hsym]
      exact prefFold_prefixed b.got _ n a hndgot hf
    simp [get_sym_addr, e2]

/-- C1 (witness): the theorem applied to imgC1, where main is static,
puts is in both the PLT (stub 0x1000) and the GOT (slot 0x404018), and
all four resolution rules are exercised. -/
theorem c1_witness :
    get_sym_addr bC1 mainB = Except.ok 0x401000 ∧
    get_sym_addr bC1 putsB = Except.ok 0x1000 ∧
    get_sym_addr bC1 (pltDot ++ putsB) = Except.ok 0x1000 ∧
    get_sym_addr bC1 (gotDot ++ putsB) = Except.ok 0x404018 :=
  ⟨(c1_symbol_priority imgC1 bC1 staticsC1 (by decide) (by decide)).1
      mainB 0x401000 (by decide) (by decide) (by decide),
   (c1_symbol_priority imgC1 bC1 staticsC1 (by decide) (by decide)).2.1
      putsB 0x1000 (by decide) (by decide) (by decide) (by decide),
   (c1_symbol_priority imgC1 bC1 staticsC1 (by decide) (by decide)).2.2.1
      putsB 0x1000 (by decide),
   (c1_symbol_priority imgC1 bC1 staticsC1 (by decide) (by decide)).2.2.2
      putsB 0x404018 (by decide)⟩

/-- C9 (confirmed): keys of the literal form plt.X and got.X do not obey
the static-wins rule: when X is a key of the PLT (resp. GOT) map, the
final symbols map rebinds plt.X (resp. got.X) to the PLT stub (resp. GOT
slot) address, even when a static symbol of that literal name with a
non-zero value exists. -/
theorem c9_prefixed_keys_overwrite_statics (img : ElfImage) (b : ELFBinary)
    (statics : SymMap) (hb : ELFBinary.new img = Except.ok b)
    (hs : parse_statics img = Except.ok statics) :
    (∀ X v a, findA statics (pltDot ++ X) = some v → findA b.plt X = some a →
      get_sym_addr b (pltDot ++ X) = Except.ok a) ∧
    (∀ X v a, findA statics (gotDot ++ X) = some v → findA b.got X = some a →
      get_sym_addr b (gotDot ++ X) = Except.ok a) := by
  obtain ⟨h1, h2, h3⟩ := elf_new_elim hb
  have hsym : b.symbols =
      b.got.foldl (prefStep gotDot) (b.plt.foldl (prefStep pltDot) statics) :=
    parse_symbols_elim h3 hs
  have hndplt : nodupK b.plt := parse_plt_nodup h2
  have hndgot : nodupK b.got := parse_got_nodup h1
  constructor
  · intro X v a _ hf
    have e1 : findA (b.plt.foldl (prefStep pltDot) statics) (pltDot ++ X) = some a :=
      prefFold_prefixed b.plt statics X a hndplt hf
    have e2 : findA b.symbols (pltDot ++ X) = some a := by
      rw [hsym]
      exact prefFold_preserve b.got _ (fun e he => gotDot_ne_pltDot e.1 X) e1
    simp [get_sym_addr, e2]
  · intro X v a _ hf
    have e2 : findA b.symbols (gotDot ++ X) = some a := by
      rw [hsym]
      exact prefFold_prefixed b.got _ X a hndgot hf
    simp [get_sym_addr, e2]

/-- C9 (witness): the theorem applied to imgC9, whose static table binds
plt.puts to 0x999 and got.puts to 0x888, both overwritten by the PLT
stub address 0x1000 and the GOT slot address 0x404018. -/
theorem c9_witness :
    findA staticsC9 (pltDot ++ putsB) = some 0x999 ∧
    get_sym_addr bC9 (pltDot ++ putsB) = Except.ok 0x1000 ∧
    findA staticsC9 (gotDot ++ putsB) = some 0x888 ∧
    get_sym_addr bC9 (gotDot ++ putsB) = Except.ok 0x404018 :=
  ⟨by decide,
   (c9_prefixed_keys_overwrite_statics imgC9 bC9 staticsC9 (by decide) (by decide)).1
      putsB 0x999 0x1000 (by decide) (by decide),
   by decide,
   (c9_prefixed_keys_overwrite_statics imgC9 bC9 staticsC9 (by decide) (by decide)).2
      putsB 0x888 0x404018 (by decide) (by decide)⟩

end BinCore
